import Mathlib

/-!
Verification of the worklog frontend core (Settings.tsx Worklog component and
api/client.ts) against its natural-language specification.

The TypeScript source is shallowly embedded: pure helpers become Lean
functions over `String` / `List Char`; the stateful React component operations
(`saveWorklog`, `deleteEntry`, `mergeEntries`, `prefillFromPrevious`) become
pure functions from the prior local state plus an explicit model of the remote
side (call outcome flag / remote store function) to the new local state plus
the list of remote calls performed; the token-refresh coordination in
client.ts becomes a small labelled transition system over the module-level
`isRefreshing` flag and `refreshSubscribers` queue.
-/

/-- Value of a decimal digit character, as used to read the `HH` / `MM` groups
(`parseInt(..., 10)` / `Number` on all-digit strings). -/
def digitVal (c : Char) : Nat := c.toNat - 48

/-- Decimal value of a digit string, as computed by `parseInt(s, 10)` or
`Number(s)` on a string of decimal digits. -/
def parseDigitsNat (cs : List Char) : Nat :=
  cs.foldl (fun acc c => acc * 10 + digitVal c) 0

/-- Embedding of JavaScript `s.split(':')`: splits a character list at every
colon, keeping empty groups (`"".split(':') = [""]`, `":".split(':') = ["",""]`). -/
def splitColon : List Char → List (List Char)
  | [] => [[]]
  | c :: rest =>
    if c = ':' then [] :: splitColon rest
    else
      match splitColon rest with
      | [] => [[c]]
      | g :: gs => (c :: g) :: gs

/-- Embedding of JavaScript `Number(s)` on the fragment the worklog code can
reach through `split(':')` on time fields: the empty string converts to `0`,
an all-digit string to its decimal value, and anything else (including a
missing group, handled at the call sites) to NaN, modelled as `none`. -/
def jsNumber (cs : List Char) : Option Int :=
  if cs.isEmpty then some 0
  else if cs.all Char.isDigit then some (parseDigitsNat cs)
  else none

/-- Embedding of `startH * 60 + startM` from `calculateDuration` in
Settings.tsx: `const [h, m] = s.split(':').map(Number)` takes the first two
groups (a missing second group is `Number(undefined) = NaN`, modelled as
`none`), and a NaN in either coordinate makes the sum NaN. -/
def minutesOfParts (s : String) : Option Int :=
  match splitColon s.data with
  | [] => none
  | h :: rest =>
    match jsNumber h, rest with
    | some hv, m :: _ =>
      match jsNumber m with
      | some mv => some (hv * 60 + mv)
      | none => none
    | _, _ => none

/-- Embedding of `calculateDuration` (Settings.tsx): parses both times as
`split(':')` hour/minute pairs and returns `Math.max(0, end - start)`;
a NaN anywhere propagates (`Math.max(0, NaN) = NaN`), modelled as `none`. -/
def calculateDuration (startTime endTime : String) : Option Int :=
  match minutesOfParts startTime, minutesOfParts endTime with
  | some s, some e => some (max 0 (e - s))
  | _, _ => none

/-- Well-formedness of a five-character `"HH:MM"` wall-clock string, used as
the hypothesis of the duration claim: two digit characters, a colon, two digit
characters, with hours below 24 and minutes below 60. -/
def isHHMML : List Char → Bool
  | [a, b, col, c, d] =>
    col = ':' && a.isDigit && b.isDigit && c.isDigit && d.isDigit &&
      decide (digitVal a * 10 + digitVal b < 24) &&
      decide (digitVal c * 10 + digitVal d < 60)
  | _ => false

/-- String form of `isHHMML`. -/
def isHHMM (s : String) : Bool := isHHMML s.data

/-- Reference function of the claim: a well-formed `"HH:MM"` string read as
minutes since midnight (0 on any other shape, never reached under the
well-formedness hypothesis). -/
def minutesSinceMidnight (s : String) : Int :=
  match s.data with
  | [a, b, col, c, d] =>
    if col = ':' then ((digitVal a * 10 + digitVal b) * 60 + (digitVal c * 10 + digitVal d) : Nat)
    else 0
  | _ => 0

/-- Embedding of the first line of `formatTimeInput` (Settings.tsx):
`value.replace(/[^\d:]/g, '')` keeps only digits and colons. -/
def cleanChars (l : List Char) : List Char :=
  l.filter (fun c => c.isDigit || c = ':')

/-- One backtracking candidate of the regex `^(\d{1,2}):?(\d{0,2})$`: take
`hl` digit characters, optionally a colon, then `ml` digit characters, and
require the input to be fully consumed; returns the two captured groups. -/
def tryMatchHM (cs : List Char) (hl : Nat) (useColon : Bool) (ml : Nat) :
    Option (List Char × List Char) :=
  let hd := cs.take hl
  if hd.length = hl && hd.all Char.isDigit then
    let r1 := cs.drop hl
    let r2opt : Option (List Char) :=
      if useColon then
        match r1 with
        | c :: t => if c = ':' then some t else none
        | [] => none
      else some r1
    match r2opt with
    | none => none
    | some r2 =>
      let md := r2.take ml
      if md.length = ml && md.all Char.isDigit && (r2.drop ml).isEmpty then
        some (hd, md)
      else none
  else none

/-- Backtracking order of the regex `^(\d{1,2}):?(\d{0,2})$`: the greedy
quantifiers try the longest hour group first, then a consumed colon before an
absent one, then the longest minute group; the first fully-consuming
candidate wins, exactly as the JavaScript regex engine matches. -/
def matchCombos : List (Nat × Bool × Nat) :=
  [(2, true, 2), (2, true, 1), (2, true, 0), (2, false, 2), (2, false, 1), (2, false, 0),
   (1, true, 2), (1, true, 1), (1, true, 0), (1, false, 2), (1, false, 1), (1, false, 0)]

/-- Embedding of `cleaned.match(/^(\d{1,2}):?(\d{0,2})$/)`: the hour and
minute capture groups of the match, or `none` when the pattern fails. -/
def matchTimeRegex (cs : List Char) : Option (List Char × List Char) :=
  matchCombos.findSome? (fun p => tryMatchHM cs p.1 p.2.1 p.2.2)

/-- Embedding of `String(n).padStart(2, '0')` for the checked range `n ≤ 59`:
one-digit numbers get a leading zero, two-digit numbers print as they are. -/
def padTwo (n : Nat) : List Char :=
  if n < 10 then ['0', Char.ofNat (48 + n)]
  else [Char.ofNat (48 + n / 10), Char.ofNat (48 + n % 10)]

/-- Embedding of `formatTimeInput` (Settings.tsx): strip characters other
than digits and colons, match `^(\d{1,2}):?(\d{0,2})$`, parse the groups
(an empty minute group is 0), reject hours above 23 or minutes above 59 by
returning the input unchanged, and otherwise print zero-padded `"HH:MM"`. -/
def formatTimeInput (value : String) : String :=
  match matchTimeRegex (cleanChars value.data) with
  | none => value
  | some (hs, ms) =>
    let h := parseDigitsNat hs
    let m := if ms = [] then 0 else parseDigitsNat ms
    if h > 23 ∨ m > 59 then value
    else String.mk (padTwo h ++ ':' :: padTwo m)

/-- Frontend `WorklogEntry` (api/client.ts): the entry id can be a server
integer or a local string; the component always compares ids through
`String(id)`, so ids are modelled by their string form. -/
structure WorklogEntry where
  id : String
  issueKey : String
  startTime : String
  endTime : String
  description : String
  loggedToJira : Bool
  jiraWorklogId : Option String
deriving DecidableEq, Repr

/-- Frontend `DayWorklog` (api/client.ts). -/
structure DayWorklog where
  date : String
  entries : List WorklogEntry
deriving DecidableEq, Repr

/-- Embedding of JavaScript `s.trim()`: strips leading and trailing
whitespace. -/
def jsTrim (s : String) : String :=
  String.mk (((s.data.dropWhile Char.isWhitespace).reverse.dropWhile Char.isWhitespace).reverse)

/-- Filter used by `saveWorklog` (Settings.tsx):
`e.issueKey && e.issueKey.trim() !== ''` — a falsy (empty) issue key or a
whitespace-only issue key makes the entry an unsaved draft. -/
def isValidEntry (e : WorklogEntry) : Bool :=
  e.issueKey ≠ "" && jsTrim e.issueKey ≠ ""

/-- Time normalization applied by `saveWorklog` to every entry before
partitioning. -/
def normalizeEntryTimes (e : WorklogEntry) : WorklogEntry :=
  { e with startTime := formatTimeInput e.startTime, endTime := formatTimeInput e.endTime }

/-- Result of one Reconciler operation: the local `DayWorklog` state after the
operation, the payloads of the `apiClient.saveWorklog` network calls it made
(in order), and whether an error toast was surfaced to the caller. -/
structure SaveOutcome where
  worklog : DayWorklog
  remoteCalls : List (List WorklogEntry)
  errorSurfaced : Bool
deriving DecidableEq, Repr

/-- Embedding of `saveWorklog` (Settings.tsx). `prior` is the component's
`worklog` state before the call, `dateKey` the selected date, and `remoteOk`
models whether the `apiClient.saveWorklog` PUT would succeed. The code
normalizes every entry's times, keeps only valid entries for the remote
payload; with no valid entry it only updates local state; on remote success
it stores the full normalized list (drafts included); on remote failure it
shows an error toast and leaves the prior state untouched. -/
def saveWorklog (prior : DayWorklog) (dateKey : String) (entries : List WorklogEntry)
    (remoteOk : Bool) : SaveOutcome :=
  let formatted := entries.map normalizeEntryTimes
  let valid := formatted.filter isValidEntry
  if valid = [] then ⟨⟨dateKey, formatted⟩, [], false⟩
  else if remoteOk then ⟨⟨dateKey, formatted⟩, [valid], false⟩
  else ⟨prior, [valid], true⟩

/-- Embedding of `deleteEntry` (Settings.tsx): find the first entry whose id
matches, drop every entry with that id; if the found entry has a falsy or
whitespace-only issue key, update local state only; otherwise run
`saveWorklog` on the remainder (also when no entry matched, as in the code
where an undefined `entryToDelete` falls through to the save path). -/
def deleteEntry (prior : DayWorklog) (dateKey : String) (id : String)
    (remoteOk : Bool) : SaveOutcome :=
  let entryToDelete := prior.entries.find? (fun e => e.id = id)
  let remaining := prior.entries.filter (fun e => e.id ≠ id)
  match entryToDelete with
  | some e =>
    if e.issueKey = "" ∨ jsTrim e.issueKey = "" then ⟨⟨dateKey, remaining⟩, [], false⟩
    else saveWorklog prior dateKey remaining remoteOk
  | none => saveWorklog prior dateKey remaining remoteOk

/-- Assoc-list model of the JavaScript `Map` used by `mergeEntries`: `set` on
a present key updates the value in place, keeping the key's original
insertion position; `set` on an absent key appends; iteration order is
insertion order. -/
def jsMapSet (m : List (String × WorklogEntry)) (k : String) (v : WorklogEntry) :
    List (String × WorklogEntry) :=
  if m.any (fun p => p.1 = k) then m.map (fun p => if p.1 = k then (k, v) else p)
  else m ++ [(k, v)]

/-- Model of `Map.get`. -/
def jsMapGet (m : List (String × WorklogEntry)) (k : String) : Option WorklogEntry :=
  (m.find? (fun p => p.1 = k)).map Prod.snd

/-- Embedding of `[a, b].filter(Boolean).join(' ')` from `mergeEntries`:
concatenation with a single separating space, skipping empty sides. -/
def combineDesc (a b : String) : String :=
  if a = "" then b else if b = "" then a else a ++ " " ++ b

/-- Seeding loop of `mergeEntries` (Settings.tsx):
`existingEntries.forEach(e => { if (e.issueKey) mergedMap.set(e.issueKey, e) })`. -/
def seedMergeMap (existing : List WorklogEntry) : List (String × WorklogEntry) :=
  existing.foldl (fun m e => if e.issueKey = "" then m else jsMapSet m e.issueKey e) []

/-- Source loop body of `mergeEntries`: skip source entries without an issue
key; merge descriptions into an existing entry for a known key; insert a new
entry with a freshly generated id and cleared logged state for a new key.
`generateId` (`Date.now` plus randomness) is modelled by a generator `gen`
applied to a counter of ids generated so far, threaded through the fold. -/
def mergeSourceStep (gen : Nat → String) (acc : List (String × WorklogEntry) × Nat)
    (e : WorklogEntry) : List (String × WorklogEntry) × Nat :=
  if e.issueKey = "" then acc
  else
    match jsMapGet acc.1 e.issueKey with
    | some ex =>
      (jsMapSet acc.1 e.issueKey { ex with description := combineDesc ex.description e.description },
        acc.2)
    | none =>
      (jsMapSet acc.1 e.issueKey { e with id := gen acc.2, loggedToJira := false, jiraWorklogId := none },
        acc.2 + 1)

/-- Embedding of `mergeEntries` (Settings.tsx): the entry list
`Array.from(mergedMap.values())` that the source then passes to
`saveWorklog`. -/
def mergeEntries (existing source : List WorklogEntry) (gen : Nat → String) :
    List WorklogEntry :=
  ((source.foldl (mergeSourceStep gen) (seedMergeMap existing, 0)).1).map Prod.snd

/-- Distinct non-empty issue keys of a list in first-occurrence order, as the
claim describes the seeded mapping's key set. -/
def firstDedup : List String → List String
  | [] => []
  | k :: rest => k :: (firstDedup rest).filter (fun x => x ≠ k)

/-- Non-empty issue keys of the current day's entries, in order. -/
def entryKeys (l : List WorklogEntry) : List String :=
  (l.filter (fun e => e.issueKey ≠ "")).map (fun e => e.issueKey)

/-- Key set of the seeded mapping per the claim. -/
def seedKeysSpec (l : List WorklogEntry) : List String :=
  firstDedup (entryKeys l)

/-- First entry of `l` carrying issue key `k` — the claim's "first occurrence
per key wins at seed time". -/
def valueFirst (l : List WorklogEntry) (k : String) : Option WorklogEntry :=
  l.find? (fun e => e.issueKey = k)

/-- Last entry of `l` carrying issue key `k` — what JavaScript `Map.set`
seeding actually keeps (later duplicates overwrite the value). -/
def valueLast (l : List WorklogEntry) (k : String) : Option WorklogEntry :=
  (l.filter (fun e => e.issueKey = k)).getLast?

/-- Reference seeded mapping following the claim's words: keys in
first-occurrence order, each bound to the FIRST current-day entry with that
key. -/
def seedMapSpecFirst (l : List WorklogEntry) : List (String × WorklogEntry) :=
  (seedKeysSpec l).filterMap (fun k => (valueFirst l k).map (fun e => (k, e)))

/-- Amended reference seeded mapping: keys in first-occurrence order, each
bound to the LAST current-day entry with that key. -/
def seedMapSpecLast (l : List WorklogEntry) : List (String × WorklogEntry) :=
  (seedKeysSpec l).filterMap (fun k => (valueLast l k).map (fun e => (k, e)))

/-- Reference merge exactly as the claim states it (first occurrence wins at
seed time), followed by the claim's sequential source-entry processing. -/
def mergeEntriesSpecFirst (existing source : List WorklogEntry) (gen : Nat → String) :
    List WorklogEntry :=
  ((source.foldl (mergeSourceStep gen) (seedMapSpecFirst existing, 0)).1).map Prod.snd

/-- Amended reference merge: identical except that at seed time the last
occurrence of a duplicated key provides the value (at the first occurrence's
position). -/
def mergeEntriesSpecLast (existing source : List WorklogEntry) (gen : Nat → String) :
    List WorklogEntry :=
  ((source.foldl (mergeSourceStep gen) (seedMapSpecLast existing, 0)).1).map Prod.snd

/-- Outcome of `prefillFromPrevious`: the dates fetched through
`apiClient.getWorklog`, in order, and the date whose entries are handed to
`mergeEntries` (`none` when the "no data" outcome is reported and local state
is left untouched). -/
structure PrefillOutcome where
  fetched : List Int
  merged : Option (Int × List WorklogEntry)
deriving DecidableEq, Repr

/-- Week loop of `prefillFromPrevious` (Settings.tsx): dates are modelled as
day numbers, so `subWeeks(current, k)` is `current - 7 * k` (stepping `- 7`
per iteration) and `subDays(current, 1)` is `current - 1`; `store` models the
per-date entry lists the remote `apiClient.getWorklog` returns. The loop
fetches the next week-back date and stops at the first non-empty entry list. -/
def prefillWeeks (store : Int → List WorklogEntry) :
    Int → Nat → List Int × Option (Int × List WorklogEntry)
  | _, 0 => ([], none)
  | d, n + 1 =>
    let dd := d - 7
    if store dd ≠ [] then ([dd], some (dd, store dd))
    else
      let r := prefillWeeks store dd n
      (dd :: r.1, r.2)

/-- Embedding of `prefillFromPrevious` (Settings.tsx): try the same weekday 1
to 4 weeks back, merging the first non-empty day; otherwise fall back to one
day before the current date; if that is empty too, report no data without
mutating local state (`merged = none`). -/
def prefillFromPrevious (store : Int → List WorklogEntry) (current : Int) : PrefillOutcome :=
  let w := prefillWeeks store current 4
  match w.2 with
  | some hit => ⟨w.1, some hit⟩
  | none =>
    if store (current - 1) ≠ [] then
      ⟨w.1 ++ [current - 1], some (current - 1, store (current - 1))⟩
    else ⟨w.1 ++ [current - 1], none⟩

/-- Backend (snake_case) worklog entry as read from GET responses
(api/client.ts `BackendWorklogEntry`): `id`, `logged_to_jira` and
`jira_worklog_id` are optional; `jira_worklog_id` distinguishes a missing
field (`none`), an explicit `null` (`some none`) and a string value
(`some (some s)`). Numeric backend ids are modelled by their string form,
matching the component's use of `String(id)`. -/
structure BackendWorklogEntry where
  id : Option String
  issue_key : String
  start_time : String
  end_time : String
  description : String
  logged_to_jira : Option Bool
  jira_worklog_id : Option (Option String)
deriving DecidableEq, Repr

/-- Payload shape produced by `transformEntryToBackend` for PUT requests:
exactly the four data fields, no id and no logged flags. -/
structure BackendWorklogEntryPut where
  issue_key : String
  start_time : String
  end_time : String
  description : String
deriving DecidableEq, Repr

/-- Embedding of JavaScript `x || fallback` on string fields: an absent field
or an empty string is falsy and yields the fallback. -/
def jsOrString (x : Option String) (fallback : String) : String :=
  match x with
  | some s => if s = "" then fallback else s
  | none => fallback

/-- Embedding of `transformEntryFromBackend` (api/client.ts): every frontend
field is always produced, with `|| ''`, `|| false` and `|| null` defaults; an
empty-string `jira_worklog_id` is falsy in JavaScript and becomes null. -/
def transformEntryFromBackend (b : BackendWorklogEntry) : WorklogEntry :=
  { id := jsOrString b.id ""
    issueKey := jsOrString (some b.issue_key) ""
    startTime := jsOrString (some b.start_time) ""
    endTime := jsOrString (some b.end_time) ""
    description := jsOrString (some b.description) ""
    loggedToJira := b.logged_to_jira.getD false
    jiraWorklogId :=
      match b.jira_worklog_id with
      | some (some s) => if s = "" then none else some s
      | _ => none }

/-- Embedding of `transformEntryToBackend` (api/client.ts). -/
def transformEntryToBackend (e : WorklogEntry) : BackendWorklogEntryPut :=
  { issue_key := e.issueKey
    start_time := e.startTime
    end_time := e.endTime
    description := e.description }

/-- Status of one UI request in the token-refresh coordination model. -/
inductive ReqStatus
  | pending
  | leading
  | waiting
  | retrying (token : String)
  | released (token : String)
  | failed
deriving DecidableEq, Repr

/-- Module-level refresh coordination state of api/client.ts: the
`isRefreshing` flag, the `refreshSubscribers` queue (request indices in push
order), the number of `refreshAccessToken` network calls made so far, the
per-request statuses, and which request currently owns the in-flight
refresh. -/
structure RefreshState where
  isRefreshing : Bool
  subscribers : List Nat
  refreshCalls : Nat
  status : Nat → ReqStatus
  leader : Option Nat

/-- Events of the refresh coordination: a request observes a 401 and runs the
synchronous `if (!isRefreshing)` block of `fetchAPI` (atomic, no `await`
between the test and the assignment), or the single in-flight
`refreshAccessToken` call settles and the leader runs the code after its
`await` up to the next suspension — with a non-null token (success) or with
null (failure). -/
inductive RefreshEvent
  | recv401 (i : Nat)
  | settleSuccess (token : String)
  | settleFailure

/-- One atomic step of the refresh coordination, `none` when the event's
precondition fails. On a 401: if no refresh is in flight, the request sets
`isRefreshing`, issues the one refresh network call and becomes the leader;
otherwise it pushes itself on `refreshSubscribers` and suspends. On success
the leader clears the flag, resolves every subscriber with the SAME new token
and empties the queue, then retries itself. On failure the leader clears the
flag and fails, but — exactly as in the source, where `onTokenRefreshed` is
only called when `newToken` is non-null — the subscriber queue is neither
flushed nor notified: the waiters keep waiting. -/
def refreshStep : RefreshEvent → RefreshState → Option RefreshState
  | .recv401 i, s =>
    if s.status i ≠ .pending then none
    else if s.isRefreshing then
      some { s with subscribers := s.subscribers ++ [i],
                    status := fun j => if j = i then .waiting else s.status j }
    else
      some { s with isRefreshing := true,
                    refreshCalls := s.refreshCalls + 1,
                    status := fun j => if j = i then .leading else s.status j,
                    leader := some i }
  | .settleSuccess tok, s =>
    match s.leader with
    | some l =>
      if s.isRefreshing then
        some { isRefreshing := false,
               subscribers := [],
               refreshCalls := s.refreshCalls,
               status := fun j =>
                 if j = l then .retrying tok
                 else if j ∈ s.subscribers then .released tok
                 else s.status j,
               leader := none }
      else none
    | none => none
  | .settleFailure, s =>
    match s.leader with
    | some l =>
      if s.isRefreshing then
        some { isRefreshing := false,
               subscribers := s.subscribers,
               refreshCalls := s.refreshCalls,
               status := fun j => if j = l then .failed else s.status j,
               leader := none }
      else none
    | none => none

/-- Run a sequence of refresh events from a state. -/
def refreshRun (events : List RefreshEvent) (s : RefreshState) : Option RefreshState :=
  events.foldlM (fun st ev => refreshStep ev st) s

/-- Initial refresh coordination state: idle, empty queue, no calls made. -/
def refreshInit : RefreshState :=
  { isRefreshing := false, subscribers := [], refreshCalls := 0,
    status := fun _ => .pending, leader := none }

example : calculateDuration "09:00" "09:00" = some 0 := by decide

example : calculateDuration "09:30" "09:00" = some 0 := by decide

example : calculateDuration "09:00" "10:30" = some 90 := by decide

example : isHHMM "09:30" = true := by decide

example : minutesSinceMidnight "09:30" = 570 := by decide

theorem isDigit_ne_colon (c : Char) (h : c.isDigit = true) : c ≠ ':' := by
  intro hc
  rw [hc] at h
  exact absurd h (by decide)

theorem splitColon_hhmm (a b c d : Char) (ha : a ≠ ':') (hb : b ≠ ':')
    (hc : c ≠ ':') (hd : d ≠ ':') :
    splitColon [a, b, ':', c, d] = [[a, b], [c, d]] := by
  simp [splitColon, ha, hb, hc, hd]

theorem jsNumber_two (a b : Char) (ha : a.isDigit = true) (hb : b.isDigit = true) :
    jsNumber [a, b] = some (((digitVal a * 10 + digitVal b : Nat) : Int)) := by
  simp [jsNumber, ha, hb, parseDigitsNat]

theorem hhmm_shape (l : List Char) (h : isHHMML l = true) :
    ∃ a b c d, l = [a, b, ':', c, d] ∧ a.isDigit = true ∧ b.isDigit = true ∧
      c.isDigit = true ∧ d.isDigit = true ∧
      digitVal a * 10 + digitVal b < 24 ∧ digitVal c * 10 + digitVal d < 60 := by
  rcases l with _ | ⟨a, _ | ⟨b, _ | ⟨col, _ | ⟨c, _ | ⟨d, _ | ⟨x, t⟩⟩⟩⟩⟩⟩ <;>
    simp [isHHMML] at h
  obtain ⟨⟨⟨⟨⟨⟨hcol, ha⟩, hb⟩, hc⟩, hd⟩, h1⟩, h2⟩ := h
  subst hcol
  exact ⟨a, b, c, d, rfl, ha, hb, hc, hd, h1, h2⟩

theorem minutesOfParts_hhmm (s : String) (h : isHHMM s = true) :
    minutesOfParts s = some (minutesSinceMidnight s) := by
  obtain ⟨a, b, c, d, hl, ha, hb, hc, hd, h1, h2⟩ := hhmm_shape s.data h
  unfold minutesOfParts minutesSinceMidnight
  rw [hl, splitColon_hhmm a b c d (isDigit_ne_colon a ha) (isDigit_ne_colon b hb)
    (isDigit_ne_colon c hc) (isDigit_ne_colon d hd)]
  simp only [jsNumber_two a b ha hb, jsNumber_two c d hc hd, if_pos rfl]
  push_cast
  ring_nf

/-- C8: for every pair of well-formed "HH:MM" time strings,
`calculateDuration start end = max 0 (minutesSinceMidnight end -
minutesSinceMidnight start)`; in particular duration "09:00" "09:00" = 0 and
duration "09:30" "09:00" = 0 (negative spans clamp to 0). -/
theorem calculateDuration_spec :
    (∀ s e : String, isHHMM s = true → isHHMM e = true →
      calculateDuration s e = some (max 0 (minutesSinceMidnight e - minutesSinceMidnight s)))
    ∧ calculateDuration "09:00" "09:00" = some 0
    ∧ calculateDuration "09:30" "09:00" = some 0 := by
  refine ⟨fun s e hs he => ?_, by decide, by decide⟩
  unfold calculateDuration
  rw [minutesOfParts_hhmm s hs, minutesOfParts_hhmm e he]

/-- Witness for C8 at concrete well-formed inputs. -/
theorem calculateDuration_spec_witness :
    isHHMM "08:15" = true ∧ isHHMM "09:05" = true ∧
      calculateDuration "08:15" "09:05" =
        some (max 0 (minutesSinceMidnight "09:05" - minutesSinceMidnight "08:15")) :=
  ⟨by decide, by decide, calculateDuration_spec.1 "08:15" "09:05" (by decide) (by decide)⟩

example : formatTimeInput "9:30" = "09:30" := by decide

example : formatTimeInput "0930" = "09:30" := by decide

example : formatTimeInput "93" = "93" := by decide

example : formatTimeInput "9" = "09:00" := by decide

example : formatTimeInput "9:" = "09:00" := by decide

example : formatTimeInput "25:00" = "25:00" := by decide

example : formatTimeInput "12:345" = "12:345" := by decide

example : formatTimeInput "ab12:30cd" = "12:30" := by decide

example : formatTimeInput "" = "" := by decide

set_option maxRecDepth 100000 in
theorem formatTimeInput_canon_fixed : ∀ h < 24, ∀ m < 60,
    formatTimeInput (String.mk (padTwo h ++ ':' :: padTwo m)) =
      String.mk (padTwo h ++ ':' :: padTwo m) := by decide

/-- C10: the time normalizer is idempotent — `formatTimeInput
(formatTimeInput s) = formatTimeInput s` for every string `s`: an accepted
string is rewritten to zero-padded "HH:MM" with hours below 24 and minutes
below 60, which the normalizer maps to itself, and a rejected string is
returned unchanged. -/
theorem formatTimeInput_idempotent :
    ∀ s : String, formatTimeInput (formatTimeInput s) = formatTimeInput s := by
  intro s
  rcases hm : matchTimeRegex (cleanChars s.data) with _ | ⟨hs, ms⟩
  · have h1 : formatTimeInput s = s := by simp [formatTimeInput, hm]
    rw [h1, h1]
  · by_cases hc : parseDigitsNat hs > 23 ∨ (if ms = ([] : List Char) then 0 else parseDigitsNat ms) > 59
    · have h1 : formatTimeInput s = s := by
        simp only [formatTimeInput, hm]
        rw [if_pos hc]
      rw [h1, h1]
    · have h1 : formatTimeInput s =
          String.mk (padTwo (parseDigitsNat hs) ++ ':' ::
            padTwo (if ms = ([] : List Char) then 0 else parseDigitsNat ms)) := by
        simp only [formatTimeInput, hm]
        rw [if_neg hc]
      push_neg at hc
      rw [h1]
      exact formatTimeInput_canon_fixed _ (by omega) _ (by omega)

example :
    saveWorklog ⟨"2024-01-01", []⟩ "2024-01-01"
      [⟨"1", "", "9:00", "10:00", "x", false, none⟩] true =
    ⟨⟨"2024-01-01", [⟨"1", "", "09:00", "10:00", "x", false, none⟩]⟩, [], false⟩ := by decide

example :
    saveWorklog ⟨"2024-01-01", []⟩ "2024-01-01"
      [⟨"1", "AB-1", "9:00", "10:00", "x", false, none⟩] true =
    ⟨⟨"2024-01-01", [⟨"1", "AB-1", "09:00", "10:00", "x", false, none⟩]⟩,
      [[⟨"1", "AB-1", "09:00", "10:00", "x", false, none⟩]], false⟩ := by decide

theorem isValidEntry_normalize (e : WorklogEntry) :
    isValidEntry (normalizeEntryTimes e) = isValidEntry e := rfl

theorem validFilter_ne_nil_iff (entries : List WorklogEntry) :
    (entries.map normalizeEntryTimes).filter isValidEntry ≠ [] ↔
      ∃ e ∈ entries, isValidEntry e = true := by
  rw [Ne, List.filter_eq_nil_iff]
  push_neg
  constructor
  · rintro ⟨x, hx, hv⟩
    obtain ⟨e, he, rfl⟩ := List.mem_map.mp hx
    exact ⟨e, he, by rwa [isValidEntry_normalize] at hv⟩
  · rintro ⟨e, he, hv⟩
    exact ⟨normalizeEntryTimes e, List.mem_map_of_mem _ he, by rwa [isValidEntry_normalize]⟩

/-- C6: saving a day in which no entry has a non-whitespace issue key performs
zero remote calls, surfaces no error, and sets the local state to the input
list with every entry's times normalized by the time formatter. -/
theorem saveWorklog_all_drafts (prior : DayWorklog) (dateKey : String)
    (entries : List WorklogEntry) (remoteOk : Bool)
    (h : ∀ e ∈ entries, jsTrim e.issueKey = "") :
    saveWorklog prior dateKey entries remoteOk =
      ⟨⟨dateKey, entries.map normalizeEntryTimes⟩, [], false⟩ := by
  have hvalid : (entries.map normalizeEntryTimes).filter isValidEntry = [] := by
    rw [List.filter_eq_nil_iff]
    intro x hx
    obtain ⟨e, he, rfl⟩ := List.mem_map.mp hx
    rw [isValidEntry_normalize]
    simp [isValidEntry, h e he]
  unfold saveWorklog
  rw [if_pos hvalid]

/-- Witness for C6 on a one-draft day. -/
theorem saveWorklog_all_drafts_witness :
    saveWorklog ⟨"2024-01-01", []⟩ "2024-01-01"
        [⟨"1", "", "9:00", "17:00", "draft", false, none⟩] true =
      ⟨⟨"2024-01-01", [⟨"1", "", "09:00", "17:00", "draft", false, none⟩]⟩, [], false⟩ := by
  rw [saveWorklog_all_drafts _ _ _ _ (by decide)]
  decide

/-- C4: when the save path does reach the remote replace-whole-day call (the
list holds at least one valid entry) and that call fails, the error is
surfaced to the caller and the prior local DayWorklog state is left unchanged. -/
theorem saveWorklog_failure_atomic (prior : DayWorklog) (dateKey : String)
    (entries : List WorklogEntry)
    (h : ∃ e ∈ entries, isValidEntry e = true) :
    (saveWorklog prior dateKey entries false).worklog = prior ∧
      (saveWorklog prior dateKey entries false).errorSurfaced = true ∧
      (saveWorklog prior dateKey entries false).remoteCalls ≠ [] := by
  have hvalid : (entries.map normalizeEntryTimes).filter isValidEntry ≠ [] :=
    (validFilter_ne_nil_iff entries).mpr h
  unfold saveWorklog
  rw [if_neg hvalid]
  simp

/-- Witness for C4 on a day with one valid entry. -/
theorem saveWorklog_failure_atomic_witness :
    (saveWorklog ⟨"2024-01-01", [⟨"0", "AB-2", "08:00", "09:00", "old", false, none⟩]⟩
        "2024-01-01" [⟨"1", "AB-1", "9:00", "10:00", "x", false, none⟩] false).worklog =
      ⟨"2024-01-01", [⟨"0", "AB-2", "08:00", "09:00", "old", false, none⟩]⟩ ∧
    (saveWorklog ⟨"2024-01-01", [⟨"0", "AB-2", "08:00", "09:00", "old", false, none⟩]⟩
        "2024-01-01" [⟨"1", "AB-1", "9:00", "10:00", "x", false, none⟩] false).errorSurfaced = true :=
  ⟨(saveWorklog_failure_atomic _ _ _ ⟨_, List.mem_singleton_self _, by decide⟩).1,
   (saveWorklog_failure_atomic _ _ _ ⟨_, List.mem_singleton_self _, by decide⟩).2.1⟩

theorem jsTrim_empty : jsTrim "" = "" := rfl

/-- Counterexample for C3 as stated: deleting the only entry of the day, whose
issueKey "AB-1" is non-empty, removes it but performs zero remote save calls,
because `saveWorklog` on the now all-draft remainder short-circuits locally. -/
theorem deleteEntry_claim_counterexample :
    ("AB-1" : String) ≠ "" ∧
      deleteEntry ⟨"2024-01-01", [⟨"1", "AB-1", "09:00", "10:00", "", false, none⟩]⟩
          "2024-01-01" "1" true =
        ⟨⟨"2024-01-01", []⟩, [], false⟩ := by decide

/-- C3 (amended): for an entry found by id, an empty or whitespace-only
issueKey makes `deleteEntry` remove it from local state only, with no remote
call and no error; a non-whitespace issueKey makes `deleteEntry` hand the
remaining list to `saveWorklog`, which performs the remote save call exactly
when the remainder still contains an entry with a non-whitespace issueKey. -/
theorem deleteEntry_amended (prior : DayWorklog) (dateKey id : String)
    (remoteOk : Bool) (e : WorklogEntry)
    (hfind : prior.entries.find? (fun x => x.id = id) = some e) :
    (jsTrim e.issueKey = "" →
      deleteEntry prior dateKey id remoteOk =
        ⟨⟨dateKey, prior.entries.filter (fun x => x.id ≠ id)⟩, [], false⟩) ∧
    (jsTrim e.issueKey ≠ "" →
      deleteEntry prior dateKey id remoteOk =
        saveWorklog prior dateKey (prior.entries.filter (fun x => x.id ≠ id)) remoteOk ∧
      ((deleteEntry prior dateKey id remoteOk).remoteCalls ≠ [] ↔
        ∃ x ∈ prior.entries.filter (fun x => x.id ≠ id), isValidEntry x = true)) := by
  constructor
  · intro hdraft
    unfold deleteEntry
    rw [hfind]
    simp only [if_pos (Or.inr hdraft)]
  · intro hvalidkey
    have hcond : ¬(e.issueKey = "" ∨ jsTrim e.issueKey = "") := by
      rintro (h1 | h2)
      · exact hvalidkey (h1 ▸ jsTrim_empty)
      · exact hvalidkey h2
    have heq : deleteEntry prior dateKey id remoteOk =
        saveWorklog prior dateKey (prior.entries.filter (fun x => x.id ≠ id)) remoteOk := by
      unfold deleteEntry
      rw [hfind]
      simp only [if_neg hcond]
    refine ⟨heq, ?_⟩
    rw [heq]
    unfold saveWorklog
    by_cases hv : ((prior.entries.filter (fun x => x.id ≠ id)).map
        normalizeEntryTimes).filter isValidEntry = []
    · rw [if_pos hv]
      simp only [ne_eq, not_true_eq_false, false_iff]
      exact fun hex => (validFilter_ne_nil_iff _).mpr hex hv
    · rw [if_neg hv]
      have hmem := (validFilter_ne_nil_iff (prior.entries.filter (fun x => x.id ≠ id))).mp hv
      cases remoteOk
      · exact iff_of_true (by simp) hmem
      · exact iff_of_true (by simp) hmem

/-- Witness for C3 (amended): a draft deletion is local-only, and a valid
deletion whose remainder still holds a valid entry makes the remote call. -/
theorem deleteEntry_amended_witness :
    deleteEntry ⟨"2024-01-01", [⟨"1", " ", "09:00", "10:00", "", false, none⟩,
        ⟨"2", "AB-1", "10:00", "11:00", "", false, none⟩]⟩ "2024-01-01" "1" true =
      ⟨⟨"2024-01-01", [⟨"2", "AB-1", "10:00", "11:00", "", false, none⟩]⟩, [], false⟩ ∧
    ((deleteEntry ⟨"2024-01-01", [⟨"1", "AB-2", "09:00", "10:00", "", false, none⟩,
        ⟨"2", "AB-1", "10:00", "11:00", "", false, none⟩]⟩ "2024-01-01" "1" true).remoteCalls ≠ [] ↔
      ∃ x ∈ ([⟨"1", "AB-2", "09:00", "10:00", "", false, none⟩,
        ⟨"2", "AB-1", "10:00", "11:00", "", false, none⟩] :
          List WorklogEntry).filter (fun x => x.id ≠ "1"), isValidEntry x = true) :=
  ⟨by
    have h := (deleteEntry_amended ⟨"2024-01-01",
      [⟨"1", " ", "09:00", "10:00", "", false, none⟩,
       ⟨"2", "AB-1", "10:00", "11:00", "", false, none⟩]⟩ "2024-01-01" "1" true
      ⟨"1", " ", "09:00", "10:00", "", false, none⟩ (by decide)).1 (by decide)
    rw [h]
    decide,
   ((deleteEntry_amended ⟨"2024-01-01",
      [⟨"1", "AB-2", "09:00", "10:00", "", false, none⟩,
       ⟨"2", "AB-1", "10:00", "11:00", "", false, none⟩]⟩ "2024-01-01" "1" true
      ⟨"1", "AB-2", "09:00", "10:00", "", false, none⟩ (by decide)).2 (by decide)).2⟩

example :
    mergeEntries [⟨"1", "X", "09:00", "10:00", "A", false, none⟩]
      [⟨"7", "X", "08:00", "09:00", "B", true, some "j"⟩] (fun n => Nat.repr n) =
    [⟨"1", "X", "09:00", "10:00", "A B", false, none⟩] := by decide

example :
    mergeEntries [⟨"1", "X", "09:00", "10:00", "A", false, none⟩]
      [⟨"7", "Y", "08:00", "09:00", "B", true, some "j"⟩] (fun n => Nat.repr n) =
    [⟨"1", "X", "09:00", "10:00", "A", false, none⟩,
     ⟨"0", "Y", "08:00", "09:00", "B", false, none⟩] := by decide

example :
    mergeEntries [⟨"1", "X", "09:00", "10:00", "A", false, none⟩,
      ⟨"2", "X", "10:00", "11:00", "B", false, none⟩] [] (fun n => Nat.repr n) =
    [⟨"2", "X", "10:00", "11:00", "B", false, none⟩] := by decide

example :
    mergeEntriesSpecFirst [⟨"1", "X", "09:00", "10:00", "A", false, none⟩,
      ⟨"2", "X", "10:00", "11:00", "B", false, none⟩] [] (fun n => Nat.repr n) =
    [⟨"1", "X", "09:00", "10:00", "A", false, none⟩] := by decide

theorem mem_firstDedup (a : String) (l : List String) : a ∈ firstDedup l ↔ a ∈ l := by
  induction l with
  | nil => simp [firstDedup]
  | cons k rest ih =>
    simp only [firstDedup, List.mem_cons, List.mem_filter, ih, decide_eq_true_eq]
    by_cases hak : a = k <;> simp [hak, ih]

theorem firstDedup_cons (a : String) (l : List String) :
    firstDedup (a :: l) = a :: (firstDedup l).filter (fun x => x ≠ a) := rfl

theorem firstDedup_append (l : List String) (k : String) :
    firstDedup (l ++ [k]) = if k ∈ l then firstDedup l else firstDedup l ++ [k] := by
  induction l with
  | nil => simp [firstDedup]
  | cons a rest ih =>
    rw [List.cons_append, firstDedup_cons, ih, firstDedup_cons]
    by_cases hk : k ∈ rest
    · rw [if_pos hk, if_pos (List.mem_cons_of_mem a hk)]
    · rw [if_neg hk]
      by_cases hka : k = a
      · subst hka
        rw [if_pos (List.mem_cons_self _ _)]
        simp [List.filter_append]
      · rw [if_neg (by simp [hka, hk])]
        simp [List.filter_append, hka]

theorem entryKeys_append (l : List WorklogEntry) (e : WorklogEntry) :
    entryKeys (l ++ [e]) = entryKeys l ++ (if e.issueKey = "" then [] else [e.issueKey]) := by
  by_cases he : e.issueKey = "" <;> simp [entryKeys, List.filter_append, he]

theorem mem_entryKeys (k : String) (l : List WorklogEntry) :
    k ∈ entryKeys l ↔ k ≠ "" ∧ ∃ x ∈ l, x.issueKey = k := by
  simp only [entryKeys, List.mem_map, List.mem_filter, decide_eq_true_eq]
  constructor
  · rintro ⟨x, ⟨hx, hk⟩, rfl⟩
    exact ⟨hk, x, hx, rfl⟩
  · rintro ⟨hk, x, hx, rfl⟩
    exact ⟨x, ⟨hx, hk⟩, rfl⟩

theorem mem_seedKeysSpec (k : String) (l : List WorklogEntry) :
    k ∈ seedKeysSpec l ↔ k ≠ "" ∧ ∃ x ∈ l, x.issueKey = k := by
  rw [seedKeysSpec, mem_firstDedup, mem_entryKeys]

theorem valueLast_append_hit (l : List WorklogEntry) (e : WorklogEntry) :
    valueLast (l ++ [e]) e.issueKey = some e := by
  simp [valueLast, List.filter_append, List.getLast?_concat]

theorem valueLast_append_miss (l : List WorklogEntry) (e : WorklogEntry) (k : String)
    (h : ¬e.issueKey = k) : valueLast (l ++ [e]) k = valueLast l k := by
  simp [valueLast, List.filter_append, h]

theorem valueLast_isSome (l : List WorklogEntry) (k : String)
    (h : ∃ x ∈ l, x.issueKey = k) : ∃ v, valueLast l k = some v := by
  obtain ⟨x, hx, hk⟩ := h
  have hne : l.filter (fun e => e.issueKey = k) ≠ [] := by
    intro hnil
    have := List.filter_eq_nil_iff.mp hnil x hx
    simp [hk] at this
  rcases hgl : (l.filter (fun e => e.issueKey = k)).getLast? with _ | v
  · exact absurd (List.getLast?_eq_none_iff.mp hgl) hne
  · exact ⟨v, hgl⟩

theorem valueLast_none (l : List WorklogEntry) (k : String)
    (h : ∀ x ∈ l, x.issueKey ≠ k) : valueLast l k = none := by
  have : l.filter (fun e => e.issueKey = k) = [] := by
    rw [List.filter_eq_nil_iff]
    intro x hx
    simp [h x hx]
  simp [valueLast, this]

theorem seedMapSpecLast_any (l : List WorklogEntry) (k : String) (h : k ∈ seedKeysSpec l) :
    (seedMapSpecLast l).any (fun p => p.1 = k) = true := by
  obtain ⟨hk, hex⟩ := (mem_seedKeysSpec k l).mp h
  obtain ⟨v, hv⟩ := valueLast_isSome l k hex
  rw [List.any_eq_true]
  refine ⟨(k, v), List.mem_filterMap.mpr ⟨k, h, ?_⟩, by simp⟩
  rw [hv]
  rfl

theorem seedMapSpecLast_any_false (l : List WorklogEntry) (k : String)
    (h : k ∉ seedKeysSpec l) :
    (seedMapSpecLast l).any (fun p => p.1 = k) = false := by
  rw [List.any_eq_false]
  rintro ⟨k2, v⟩ hp
  obtain ⟨k3, hk3, hf⟩ := List.mem_filterMap.mp hp
  rcases hvl : valueLast l k3 with _ | w <;> rw [hvl] at hf <;> simp at hf
  obtain ⟨rfl, rfl⟩ := hf
  simp only [decide_eq_true_eq]
  intro hk
  exact h (hk ▸ hk3)

theorem specLast_set (l : List WorklogEntry) (e : WorklogEntry) (he : ¬e.issueKey = "") :
    jsMapSet (seedMapSpecLast l) e.issueKey e = seedMapSpecLast (l ++ [e]) := by
  have hkeys : seedKeysSpec (l ++ [e]) =
      if e.issueKey ∈ entryKeys l then seedKeysSpec l else seedKeysSpec l ++ [e.issueKey] := by
    rw [seedKeysSpec, entryKeys_append, if_neg he, firstDedup_append]
    rfl
  by_cases hmem : e.issueKey ∈ seedKeysSpec l
  · have hmemk : e.issueKey ∈ entryKeys l := (mem_firstDedup _ _).mp hmem
    obtain ⟨hk0ne, hex⟩ := (mem_seedKeysSpec _ l).mp hmem
    obtain ⟨v0, hv0⟩ := valueLast_isSome l e.issueKey hex
    unfold jsMapSet
    rw [if_pos (seedMapSpecLast_any l e.issueKey hmem)]
    conv_rhs => rw [seedMapSpecLast, hkeys, if_pos hmemk]
    conv_lhs => rw [seedMapSpecLast, List.map_filterMap]
    apply List.filterMap_congr
    intro k hk
    by_cases hkk : k = e.issueKey
    · subst hkk
      rw [hv0, valueLast_append_hit]
      simp
    · rw [valueLast_append_miss l e k (fun hh => hkk hh.symm)]
      cases valueLast l k <;> simp [hkk]
  · have hmemk : e.issueKey ∉ entryKeys l := fun hh => hmem ((mem_firstDedup _ _).mpr hh)
    unfold jsMapSet
    rw [if_neg (by rw [seedMapSpecLast_any_false l e.issueKey hmem]; simp)]
    conv_rhs => rw [seedMapSpecLast, hkeys, if_neg hmemk, List.filterMap_append]
    congr 1
    · rw [seedMapSpecLast]
      apply List.filterMap_congr
      intro k hk
      have hne2 : ¬e.issueKey = k := fun hh => hmem (hh ▸ hk)
      rw [valueLast_append_miss l e k hne2]
    · simp [valueLast_append_hit]

theorem seedMergeMap_eq_specLast (l : List WorklogEntry) :
    seedMergeMap l = seedMapSpecLast l := by
  induction l using List.reverseRecOn with
  | nil => rfl
  | append_singleton l e ih =>
    have hstep : seedMergeMap (l ++ [e]) =
        if e.issueKey = "" then seedMergeMap l else jsMapSet (seedMergeMap l) e.issueKey e := by
      simp [seedMergeMap, List.foldl_append]
    rw [hstep, ih]
    by_cases he : e.issueKey = ""
    · rw [if_pos he]
      rw [seedMapSpecLast, seedMapSpecLast, seedKeysSpec, seedKeysSpec, entryKeys_append,
        if_pos he, List.append_nil]
      apply List.filterMap_congr
      intro k hk
      have hkne : k ≠ "" :=
        ((mem_entryKeys k l).mp ((mem_firstDedup k _).mp hk)).1
      rw [valueLast_append_miss l e k (by rw [he]; exact fun hh => hkne hh.symm)]
    · rw [if_neg he]
      exact specLast_set l e he

/-- C1 (amended): `mergeEntries` coincides with the reference merge in which,
at seed time, the LAST current-day occurrence of a duplicated issue key
provides the value (at the first occurrence's position); the list it produces
is what the source hands to `saveWorklog`, so the save pipelines agree as
well. -/
theorem mergeEntries_eq_specLast :
    (∀ existing source : List WorklogEntry, ∀ gen : Nat → String,
      mergeEntries existing source gen = mergeEntriesSpecLast existing source gen) ∧
    (∀ (prior : DayWorklog) (dk : String) (existing source : List WorklogEntry)
      (gen : Nat → String) (ok : Bool),
      saveWorklog prior dk (mergeEntries existing source gen) ok =
        saveWorklog prior dk (mergeEntriesSpecLast existing source gen) ok) := by
  have hlist : ∀ existing source : List WorklogEntry, ∀ gen : Nat → String,
      mergeEntries existing source gen = mergeEntriesSpecLast existing source gen := by
    intro existing source gen
    unfold mergeEntries mergeEntriesSpecLast
    rw [seedMergeMap_eq_specLast]
  exact ⟨hlist, fun prior dk existing source gen ok => by rw [hlist existing source gen]⟩

/-- Counterexample for C1 as stated: with two current-day entries sharing
issue key "X", JavaScript `Map.set` seeding keeps the LAST occurrence's
value, while the claim's reference merge keeps the first, so the two merges
differ on this input. -/
theorem mergeEntries_claim_counterexample :
    mergeEntries [⟨"1", "X", "09:00", "10:00", "A", false, none⟩,
        ⟨"2", "X", "10:00", "11:00", "B", false, none⟩] [] (fun _ => "fresh") ≠
      mergeEntriesSpecFirst [⟨"1", "X", "09:00", "10:00", "A", false, none⟩,
        ⟨"2", "X", "10:00", "11:00", "B", false, none⟩] [] (fun _ => "fresh") := by decide

theorem allKeyed_jsMapSet (m : List (String × WorklogEntry)) (k : String) (v : WorklogEntry)
    (hm : ∀ p ∈ m, p.2.issueKey ≠ "") (hv : v.issueKey ≠ "") :
    ∀ p ∈ jsMapSet m k v, p.2.issueKey ≠ "" := by
  intro p hp
  unfold jsMapSet at hp
  by_cases hany : m.any (fun q => q.1 = k) = true
  · rw [if_pos hany] at hp
    obtain ⟨q, hq, hqe⟩ := List.mem_map.mp hp
    by_cases hqk : q.1 = k
    · rw [if_pos hqk] at hqe
      rw [← hqe]
      exact hv
    · rw [if_neg hqk] at hqe
      rw [← hqe]
      exact hm q hq
  · rw [if_neg hany] at hp
    rcases List.mem_append.mp hp with h1 | h2
    · exact hm p h1
    · rw [List.mem_singleton.mp h2]
      exact hv

theorem allKeyed_mergeFold (gen : Nat → String) (source : List WorklogEntry) :
    ∀ (m : List (String × WorklogEntry)) (n : Nat),
      (∀ p ∈ m, p.2.issueKey ≠ "") →
      ∀ p ∈ (source.foldl (mergeSourceStep gen) (m, n)).1, p.2.issueKey ≠ "" := by
  induction source with
  | nil => exact fun m n hm => hm
  | cons e rest ih =>
    intro m n hm
    rw [List.foldl_cons]
    unfold mergeSourceStep
    by_cases he : e.issueKey = ""
    · rw [if_pos he]
      exact ih m n hm
    · rw [if_neg he]
      rcases hget : jsMapGet m e.issueKey with _ | ex
      · exact ih _ _ (allKeyed_jsMapSet m e.issueKey _ hm he)
      · have hexk : ex.issueKey ≠ "" := by
          unfold jsMapGet at hget
          rcases hfind : m.find? (fun p => p.1 = e.issueKey) with _ | q
          · rw [hfind] at hget
            simp at hget
          · rw [hfind] at hget
            simp at hget
            rw [← hget]
            exact hm q (List.mem_of_find?_eq_some hfind)
        exact ih _ _ (allKeyed_jsMapSet m e.issueKey _ hm hexk)

/-- C9: every entry in the list produced by `mergeEntries` has a non-empty
issueKey; in particular a draft entry (empty issueKey) present in the current
day before a prefill merge is silently dropped, since the merged map is
seeded only from entries with non-empty issueKey and its values replace the
whole list. -/
theorem mergeEntries_drops_drafts :
    ∀ (existing source : List WorklogEntry) (gen : Nat → String),
      (∀ e ∈ mergeEntries existing source gen, e.issueKey ≠ "") ∧
      (∀ d ∈ existing, d.issueKey = "" → d ∉ mergeEntries existing source gen) := by
  intro existing source gen
  have hseed : ∀ p ∈ seedMergeMap existing, p.2.issueKey ≠ "" := by
    rw [seedMergeMap_eq_specLast]
    intro p hp
    obtain ⟨k, hk, hf⟩ := List.mem_filterMap.mp hp
    have hkne := ((mem_seedKeysSpec k existing).mp hk).1
    rcases hvl : valueLast existing k with _ | v <;> rw [hvl] at hf
    · simp at hf
    · simp only [Option.map_some'] at hf
      have hvmem : v ∈ existing.filter (fun e => e.issueKey = k) :=
        List.mem_of_mem_getLast? hvl
      have hvk : v.issueKey = k := by
        have := (List.mem_filter.mp hvmem).2
        simpa using this
      obtain rfl : (k, v) = p := Option.some_injective _ hf
      simpa [hvk] using hkne
  have hall : ∀ e ∈ mergeEntries existing source gen, e.issueKey ≠ "" := by
    intro e he
    unfold mergeEntries at he
    obtain ⟨p, hp, hpe⟩ := List.mem_map.mp he
    rw [← hpe]
    exact allKeyed_mergeFold gen source (seedMergeMap existing) 0 hseed p hp
  exact ⟨hall, fun d hd hkey hmem => hall d hmem hkey⟩

/-- Witness for C9: a concrete draft entry present before the merge is absent
from the merged list. -/
theorem mergeEntries_drops_drafts_witness :
    (⟨"1", "", "09:00", "10:00", "", false, none⟩ : WorklogEntry) ∉
      mergeEntries [⟨"1", "", "09:00", "10:00", "", false, none⟩,
        ⟨"2", "X", "10:00", "11:00", "B", false, none⟩] [] (fun n => Nat.repr n) :=
  (mergeEntries_drops_drafts _ _ _).2 _ (List.mem_cons_self _ _) rfl

/-- C5: fetch order is 1, 2, 3, 4 whole weeks back (same weekday), stopping
at the first date with a non-empty entry list and merging exactly that
date's entries, so the number of fetches equals the stopping index; if all
four are empty the fallback is exactly one day back; if that is also empty a
no-data outcome is reported with nothing merged. -/
theorem prefillFromPrevious_spec :
    ∀ (store : Int → List WorklogEntry) (c : Int),
      (store (c - 7) ≠ [] →
        prefillFromPrevious store c = ⟨[c - 7], some (c - 7, store (c - 7))⟩) ∧
      (store (c - 7) = [] → store (c - 14) ≠ [] →
        prefillFromPrevious store c = ⟨[c - 7, c - 14], some (c - 14, store (c - 14))⟩) ∧
      (store (c - 7) = [] → store (c - 14) = [] → store (c - 21) ≠ [] →
        prefillFromPrevious store c =
          ⟨[c - 7, c - 14, c - 21], some (c - 21, store (c - 21))⟩) ∧
      (store (c - 7) = [] → store (c - 14) = [] → store (c - 21) = [] →
        store (c - 28) ≠ [] →
        prefillFromPrevious store c =
          ⟨[c - 7, c - 14, c - 21, c - 28], some (c - 28, store (c - 28))⟩) ∧
      (store (c - 7) = [] → store (c - 14) = [] → store (c - 21) = [] →
        store (c - 28) = [] → store (c - 1) ≠ [] →
        prefillFromPrevious store c =
          ⟨[c - 7, c - 14, c - 21, c - 28, c - 1], some (c - 1, store (c - 1))⟩) ∧
      (store (c - 7) = [] → store (c - 14) = [] → store (c - 21) = [] →
        store (c - 28) = [] → store (c - 1) = [] →
        prefillFromPrevious store c =
          ⟨[c - 7, c - 14, c - 21, c - 28, c - 1], none⟩) := by
  intro store c
  have e2 : c - 7 - 7 = c - 14 := by ring
  have e3 : c - 14 - 7 = c - 21 := by ring
  have e4 : c - 21 - 7 = c - 28 := by ring
  refine ⟨?_, ?_, ?_, ?_, ?_, ?_⟩
  · intro h1
    simp [prefillFromPrevious, prefillWeeks, h1]
  · intro h1 h2
    simp [prefillFromPrevious, prefillWeeks, h1, e2, h2]
  · intro h1 h2 h3
    simp [prefillFromPrevious, prefillWeeks, h1, e2, h2, e3, h3]
  · intro h1 h2 h3 h4
    simp [prefillFromPrevious, prefillWeeks, h1, e2, h2, e3, h3, e4, h4]
  · intro h1 h2 h3 h4 h5
    simp [prefillFromPrevious, prefillWeeks, h1, e2, h2, e3, h3, e4, h4, h5]
  · intro h1 h2 h3 h4 h5
    simp [prefillFromPrevious, prefillWeeks, h1, e2, h2, e3, h3, e4, h4, h5]

/-- Witness for C5: a store with data only two weeks back makes the prefill
fetch weeks 1 and 2 and merge week 2. -/
theorem prefillFromPrevious_spec_witness :
    (fun d : Int => if d = 86 then [(⟨"1", "X", "09:00", "10:00", "", false, none⟩ :
        WorklogEntry)] else []) (100 - 7) = [] ∧
    prefillFromPrevious (fun d : Int => if d = 86 then
        [(⟨"1", "X", "09:00", "10:00", "", false, none⟩ : WorklogEntry)] else []) 100 =
      ⟨[100 - 7, 100 - 14], some (100 - 14,
        (fun d : Int => if d = 86 then [(⟨"1", "X", "09:00", "10:00", "", false, none⟩ :
          WorklogEntry)] else []) (100 - 14))⟩ :=
  ⟨by decide,
   ((prefillFromPrevious_spec (fun d : Int => if d = 86 then
      [(⟨"1", "X", "09:00", "10:00", "", false, none⟩ : WorklogEntry)] else []) 100).2.1
      (by decide) (by decide))⟩

theorem jsOrString_some_empty_fallback (s : String) : jsOrString (some s) "" = s := by
  unfold jsOrString
  by_cases h : s = "" <;> simp [h]

/-- C7: transforming a remote entry to local form and back to the PUT form
preserves issue_key, start_time, end_time and description exactly; the
transform pair is total by construction, and the documented-lossy fields
default as specified on absent optionals (id to "", logged flag to false,
jira worklog id to null). -/
theorem transform_roundtrip :
    (∀ b : BackendWorklogEntry,
      transformEntryToBackend (transformEntryFromBackend b) =
        ⟨b.issue_key, b.start_time, b.end_time, b.description⟩) ∧
    (∀ k st en de : String,
      (transformEntryFromBackend ⟨none, k, st, en, de, none, none⟩).id = "" ∧
      (transformEntryFromBackend ⟨none, k, st, en, de, none, none⟩).loggedToJira = false ∧
      (transformEntryFromBackend ⟨none, k, st, en, de, none, none⟩).jiraWorklogId = none) := by
  constructor
  · intro b
    simp [transformEntryToBackend, transformEntryFromBackend, jsOrString_some_empty_fallback]
  · intro k st en de
    exact ⟨rfl, rfl, rfl⟩

example :
    (refreshRun [.recv401 0, .recv401 1, .settleSuccess "t"] refreshInit).map
      (fun s => (s.isRefreshing, s.refreshCalls, s.subscribers, s.status 0, s.status 1)) =
    some (false, 1, [], .retrying "t", .released "t") := by decide

theorem refreshRun_two (e1 e2 : RefreshEvent) (s s2 : RefreshState) :
    refreshRun [e1, e2] s = some s2 ↔
      ∃ s1, refreshStep e1 s = some s1 ∧ refreshStep e2 s1 = some s2 := by
  unfold refreshRun
  rcases h : refreshStep e1 s with _ | s1 <;> simp [List.foldlM, h]

/-- Counterexample for C2 as stated: in the execution where request 0 leads a
refresh, request 1 joins the waiter queue, and the in-flight refresh call
settles with FAILURE, the refresh is over (flag back to false) yet the queued
waiter is neither released nor told to fail — it is still `waiting` in a
never-flushed queue, because the source only invokes the subscriber
callbacks when the new token is non-null. -/
theorem refresh_claim_counterexample :
    (refreshRun [.recv401 0, .recv401 1, .settleFailure] refreshInit).map
      (fun s => (s.isRefreshing, s.refreshCalls, s.subscribers, s.status 1)) =
    some (false, 1, [1], .waiting) := by decide

/-- C2 (amended): a 401 arriving while a refresh is in flight joins the
waiter queue without issuing a second refresh call; a concurrent pair of
401s starting from the idle initial state makes exactly one refresh network
call; when the in-flight call settles with success every queued waiter is
released with the same resolved token and the queue is emptied; when it
settles with failure the queue is left as it was — the waiters are NOT
released and NOT told to fail. -/
theorem refresh_coordination_amended :
    (∀ (s s' : RefreshState) (i : Nat),
      s.isRefreshing = true → refreshStep (.recv401 i) s = some s' →
      s'.subscribers = s.subscribers ++ [i] ∧ s'.refreshCalls = s.refreshCalls ∧
        s'.status i = .waiting) ∧
    (∀ (a b : Nat) (s2 : RefreshState),
      refreshRun [.recv401 a, .recv401 b] refreshInit = some s2 →
      s2.refreshCalls = 1) ∧
    (∀ (s s' : RefreshState) (tok : String),
      refreshStep (.settleSuccess tok) s = some s' →
      s'.isRefreshing = false ∧ s'.subscribers = [] ∧
      ∀ i ∈ s.subscribers, s.leader ≠ some i → s'.status i = .released tok) ∧
    (∀ (s s' : RefreshState),
      refreshStep .settleFailure s = some s' →
      s'.isRefreshing = false ∧ s'.subscribers = s.subscribers ∧
      ∀ i ∈ s.subscribers, s.leader ≠ some i → s'.status i = s.status i) := by
  refine ⟨?_, ?_, ?_, ?_⟩
  · intro s s' i href hstep
    simp only [refreshStep] at hstep
    by_cases hp : s.status i ≠ ReqStatus.pending
    · rw [if_pos hp] at hstep
      exact absurd hstep (by simp)
    · rw [if_neg hp, if_pos href] at hstep
      obtain rfl := Option.some_injective _ hstep
      exact ⟨rfl, rfl, by simp⟩
  · intro a b s2 hrun
    obtain ⟨s1, h1, h2⟩ := (refreshRun_two _ _ _ _).mp hrun
    have hs1 : s1 =
        { isRefreshing := true, subscribers := [], refreshCalls := 1,
          status := fun j => if j = a then ReqStatus.leading else ReqStatus.pending,
          leader := some a } := by
      simp [refreshStep, refreshInit] at h1
      exact h1.symm
    subst hs1
    simp only [refreshStep] at h2
    by_cases hab : b = a
    · subst hab
      simp at h2
    · simp only [hab] at h2
      simp [hab] at h2
      rw [← h2]
  · intro s s' tok hstep
    simp only [refreshStep] at hstep
    rcases hl : s.leader with _ | l
    · simp only [hl] at hstep
      exact absurd hstep (by simp)
    · simp only [hl] at hstep
      by_cases hr : s.isRefreshing = true
      · rw [if_pos hr] at hstep
        obtain rfl := Option.some_injective _ hstep
        refine ⟨rfl, rfl, ?_⟩
        intro i hi hne
        have hil : ¬(i = l) := fun hh => hne (by rw [hh])
        simp [hil, hi]
      · rw [if_neg hr] at hstep
        exact absurd hstep (by simp)
  · intro s s' hstep
    simp only [refreshStep] at hstep
    rcases hl : s.leader with _ | l
    · simp only [hl] at hstep
      exact absurd hstep (by simp)
    · simp only [hl] at hstep
      by_cases hr : s.isRefreshing = true
      · rw [if_pos hr] at hstep
        obtain rfl := Option.some_injective _ hstep
        refine ⟨rfl, rfl, ?_⟩
        intro i hi hne
        have hil : ¬(i = l) := fun hh => hne (by rw [hh])
        simp [hil]
      · rw [if_neg hr] at hstep
        exact absurd hstep (by simp)

/-- Witness for C2 (amended): the concrete two-request execution, applied to
the pair part of the theorem with its run hypothesis discharged by
computation. -/
theorem refresh_coordination_amended_witness :
    ({ isRefreshing := true, subscribers := [1], refreshCalls := 1,
       status := fun j => if j = 1 then ReqStatus.waiting else
         if j = 0 then ReqStatus.leading else ReqStatus.pending,
       leader := some 0 } : RefreshState).refreshCalls = 1 :=
  refresh_coordination_amended.2.1 0 1 _ rfl
